import Mathlib

/-!
Verification model of the credential and session management engine of
`mangle_web_engine` (file `src/apps/auth/singletons.rs`).

Embedding conventions:
* `Instant` is a natural number tick of a monotonic clock; `Duration` is a
  natural number of the same unit.  Every operation that calls
  `Instant::now()` in Rust takes an explicit `now : Nat` argument, and
  `t.elapsed()` becomes `now - t` (truncated subtraction; the monotonic clock
  guarantees `t ≤ now` in the source).
* `u8` counters are natural numbers; the one place the source increments a
  `u8` (`running_count += 1`, `renew_count += 1`) is modelled with an explicit
  `% 256`, and theorems carry the bound `≤ 255` that the `u8` configuration
  fields enforce in the source.
* `HashMap<String, _>` and `HashSet<String>` are modelled as functions
  `String → Option _` and `String → Bool` (keyed lookup semantics).
* `BiMap<String, SessionData>` is modelled as an association list together
  with the no-duplicate invariants (`Nodup` of the left projections and of the
  right projections) that the bimap structure maintains; `SessionData`
  equality and hashing in the source are by `id` alone, so every right-hand
  comparison below compares only the `id` field.
* The Argon2 password-hash core lives in an external crate, so it is taken
  as an abstract function `argon : hashLength → password → salt → hash`; the
  parameter validation performed by the crate (`hash_length ≥ 4`,
  `salt.len() ≥ 8`) is modelled explicitly.
-/

namespace MangleAuth

/-! ### Credential manager (`Logins`) data model -/

/-- `FailedLoginAttempt` of the source: a running failure count (`u8`) and the
time of the last failed attempt. -/
structure FailedLoginAttempt where
  running_count : Nat
  time : Nat
deriving DecidableEq

/-- Configuration fields of `Logins` fixed at construction. -/
structure LoginsConfig where
  lockout_time : Nat
  max_fails : Nat
  salt_len : Nat
  min_username_len : Nat
  max_username_len : Nat
  cleanup_interval : Nat
  hash_length : Nat
deriving DecidableEq

/-- The `failed_logins` map of `Logins`. -/
abbrev FailedMap := String → Option FailedLoginAttempt

/-- The `tmp_reserved_names` set of `Logins`. -/
abbrev ReservedSet := String → Bool

def FailedMap.insert (m : FailedMap) (u : String) (a : FailedLoginAttempt) : FailedMap :=
  fun v => if v = u then some a else m v

def FailedMap.remove (m : FailedMap) (u : String) : FailedMap :=
  fun v => if v = u then none else m v

/-- `Logins::is_user_locked_out`: time left in lockout if the running failure
count has reached `max_fails` and the lockout window has not elapsed. -/
def is_user_locked_out (cfg : LoginsConfig) (m : FailedMap) (u : String) (now : Nat) :
    Option Nat :=
  match m u with
  | some attempt =>
    let elapsed := now - attempt.time
    if cfg.max_fails ≤ attempt.running_count ∧ elapsed < cfg.lockout_time then
      some (cfg.lockout_time - elapsed)
    else
      none
  | none => none

/-- `Logins::mark_failed_login`: remove the entry, bump or reset the counter,
stamp the current time, reinsert. -/
def mark_failed_login (cfg : LoginsConfig) (m : FailedMap) (u : String) (now : Nat) :
    FailedMap :=
  let attempt :=
    match m u with
    | some a =>
      if cfg.max_fails ≤ a.running_count then
        { running_count := 1, time := now }
      else
        { running_count := (a.running_count + 1) % 256, time := now }
    | none => ({ running_count := 1, time := now } : FailedLoginAttempt)
  FailedMap.insert (FailedMap.remove m u) u attempt

/-- `Logins::mark_succesful_login` (source spelling): clear the counter. -/
def mark_succesful_login (m : FailedMap) (u : String) : FailedMap :=
  FailedMap.remove m u

/-- Folding `mark_failed_login` over a list of attempt times (one call per
failed login, in order). -/
def applyFails (cfg : LoginsConfig) (u : String) (m : FailedMap) (ts : List Nat) :
    FailedMap :=
  ts.foldl (fun acc t => mark_failed_login cfg acc u t) m

/-- `Logins::reserve_username`: insert into the reservation set, returning
`none` if the name was already present; `some ()` stands for the returned
`UsernameReservation` handle. -/
def reserve_username (s : ReservedSet) (u : String) : Option Unit × ReservedSet :=
  if s u then (none, s)
  else (some (), fun v => if v = u then true else s v)

/-- `Drop for UsernameReservation`: remove the name from the reservation set. -/
def drop_reservation (s : ReservedSet) (u : String) : ReservedSet :=
  fun v => if v = u then false else s v

/-! ### Username validation -/

inductive UsernameError where
  | ContainsWhitespace
  | Inappropriate
  | TooShort
  | TooLong
  | IsNotAlphanumeric
deriving DecidableEq

/-- UTF-8 byte length of one scalar value (Rust `str::len` counts bytes). -/
def char_utf8_len (c : Char) : Nat :=
  if c.toNat < 0x80 then 1
  else if c.toNat < 0x800 then 2
  else if c.toNat < 0x10000 then 3
  else 4

/-- Rust `str::len` (UTF-8 byte length) of a list of chars. -/
def rust_str_len (u : List Char) : Nat :=
  (u.map char_utf8_len).sum

/-- `Logins::is_valid_username`.  The character classifiers
(`char::is_whitespace`, `char::is_alphanumeric`) and the `rustrict`
inappropriateness filter are external library predicates, taken as
parameters. -/
def is_valid_username (cfg : LoginsConfig) (isWs isAlnum : Char → Bool)
    (isInappropriate : List Char → Bool) (u : List Char) :
    Except UsernameError Unit :=
  if u.any isWs then Except.error UsernameError.ContainsWhitespace
  else if rust_str_len u < cfg.min_username_len then Except.error UsernameError.TooShort
  else if cfg.max_username_len < rust_str_len u then Except.error UsernameError.TooLong
  else if ¬ u.all isAlnum then Except.error UsernameError.IsNotAlphanumeric
  else if isInappropriate u then Except.error UsernameError.Inappropriate
  else Except.ok ()

/-- The five checks of `is_valid_username`, in the fixed source order, each
paired with the error it raises.  This definition follows the wording of the
specification ("ordered checks: contains-whitespace → too-short → too-long →
not-alphanumeric → flagged-inappropriate"), to be compared with the embedded
code. -/
def usernameChecks (cfg : LoginsConfig) (isWs isAlnum : Char → Bool)
    (isInappropriate : List Char → Bool) (u : List Char) :
    List (Bool × UsernameError) :=
  [ (u.any isWs, UsernameError.ContainsWhitespace),
    (decide (rust_str_len u < cfg.min_username_len), UsernameError.TooShort),
    (decide (cfg.max_username_len < rust_str_len u), UsernameError.TooLong),
    (!(u.all isAlnum), UsernameError.IsNotAlphanumeric),
    (isInappropriate u, UsernameError.Inappropriate) ]

/-- First failing check wins; `ok` when every check passes (specification
wording). -/
def firstFailing : List (Bool × UsernameError) → Except UsernameError Unit
  | [] => Except.ok ()
  | (b, e) :: rest => if b then Except.error e else firstFailing rest

/-! ### Argon2 model -/

/-- The two parameter-validation errors of the external `argon2` crate that
are reachable from this code path. -/
inductive ArgonError where
  | OutputTooShort
  | SaltTooShort
deriving DecidableEq

/-- `PasswordHash` of the source. -/
structure PasswordHash where
  hash : List Nat
  salt : List Nat
deriving DecidableEq

/-- `argon2::hash_raw`: validate parameters, then run the abstract Argon2
core `argon` at the configured output length. -/
def hash_raw (argon : Nat → List Nat → List Nat → List Nat) (hashLength : Nat)
    (pwd salt : List Nat) : Except ArgonError (List Nat) :=
  if hashLength < 4 then Except.error ArgonError.OutputTooShort
  else if salt.length < 8 then Except.error ArgonError.SaltTooShort
  else Except.ok (argon hashLength pwd salt)

/-- `argon2::verify_raw`: recompute the hash with the stored parameters,
using the stored hash length as the output length, and compare. -/
def verify_raw (argon : Nat → List Nat → List Nat → List Nat)
    (pwd salt hash : List Nat) : Except ArgonError Bool :=
  match hash_raw argon hash.length pwd salt with
  | Except.error e => Except.error e
  | Except.ok h => Except.ok (decide (h = hash))

/-- `Logins::hash_password`: draw `salt_len` bytes from the RNG stream
`randBytes`, hash, and package hash and salt. -/
def hash_password (cfg : LoginsConfig) (argon : Nat → List Nat → List Nat → List Nat)
    (randBytes : List Nat) (pwd : List Nat) : Except ArgonError PasswordHash :=
  let salt := randBytes.take cfg.salt_len
  match hash_raw argon cfg.hash_length pwd salt with
  | Except.error e => Except.error e
  | Except.ok h => Except.ok { hash := h, salt := salt }

/-- `Logins::verify_password`: delegate to `verify_raw` with the stored salt
and hash. -/
def verify_password (_cfg : LoginsConfig) (argon : Nat → List Nat → List Nat → List Nat)
    (pwd salt hash : List Nat) : Except ArgonError Bool :=
  verify_raw argon pwd salt hash

/-! ### Session store (`Sessions`) data model -/

/-- `SessionID`: a `[char; 32]` token in the source; the model keeps the
characters and treats the length as incidental. -/
abbrev SessionID := List Char

/-- `SessionData` of the source.  In the source, `Hash`, `PartialEq` and
`Borrow<SessionID>` for this type all go through `id` alone, so the bimap
compares right-hand values by `id` only. -/
structure SessionData where
  id : SessionID
  creation_time : Nat
  renew_count : Nat
deriving DecidableEq

/-- Configuration fields of `Sessions` fixed at construction. -/
structure SessionsConfig where
  max_session_duration : Nat
  cleanup_interval : Nat
  max_renew_count : Nat
deriving DecidableEq

/-- The `user_session_map` bimap, as an association list of
(username, session-data) pairs. -/
abbrev Store := List (String × SessionData)

/-- Mutable fields of `Sessions` (the map and the cleanup rate limiter). -/
structure SessionsState where
  store : Store
  last_cleanup_time : Nat

/-- `BiMap::contains_right` (right-hand comparison is by `id`). -/
def containsRight (s : Store) (id : SessionID) : Bool :=
  s.any (fun p => p.2.id == id)

/-- `BiMap::get_by_right` (right-hand comparison is by `id`). -/
def getByRight (s : Store) (id : SessionID) : Option String :=
  (s.find? (fun p => p.2.id == id)).map (fun p => p.1)

/-- `BiMap::remove_by_left`: return the removed pair, if any, and the
remaining map. -/
def removeByLeft (s : Store) (u : String) : Option (String × SessionData) × Store :=
  match s.find? (fun p => p.1 == u) with
  | none => (none, s)
  | some p => (some p, s.filter (fun q => q.1 != u))

/-- `BiMap::insert` (overwriting): drop any pair that collides on the left
username or on the right `id`, then add the new pair. -/
def insertBi (s : Store) (u : String) (d : SessionData) : Store :=
  (s.filter (fun q => q.1 != u && q.2.id != d.id)) ++ [(u, d)]

/-- The token-generation loop of `Sessions::create_session`: take the first
RNG candidate that does not collide with a live token.  The RNG stream is
passed in as `cands`; with the infinite stream of the source the loop always
terminates, so the `none` case stands for an exhausted finite prefix. -/
def freshId (s : Store) : List SessionID → Option SessionID
  | [] => none
  | c :: rest => if containsRight s c then freshId s rest else some c

/-- `Sessions::create_session`: pick a fresh token and insert the pair,
replacing any existing session of the user (bimap overwrite). -/
def create_session (s : Store) (u : String) (cands : List SessionID) (now : Nat) :
    Option (SessionID × Store) :=
  match freshId s cands with
  | none => none
  | some id =>
    some (id, insertBi s u { id := id, creation_time := now, renew_count := 0 })

/-- `Sessions::renew_session`: remove the pair of the user; fail if the
renewal count has reached the maximum (note that the removed pair is not
reinserted on this branch), else bump the count, reset the creation time,
reinsert, and return the renewals remaining. -/
def renew_session (cfg : SessionsConfig) (s : Store) (u : String) (now : Nat) :
    Option Nat × Store :=
  match removeByLeft s u with
  | (none, _) => (none, s)
  | (some (u₁, d), s₁) =>
    if cfg.max_renew_count ≤ d.renew_count then
      (none, s₁)
    else
      let rc := (d.renew_count + 1) % 256
      (some (cfg.max_renew_count - rc),
       insertBi s₁ u₁ { d with renew_count := rc, creation_time := now })

/-- `Sessions::remove_session`: unconditional removal by username. -/
def remove_session (s : Store) (u : String) : Store :=
  (removeByLeft s u).2

/-- `Sessions::get_session_owner`: a plain right-hand lookup of the map. -/
def get_session_owner (s : Store) (id : SessionID) : Option String :=
  getByRight s id

/-- `Sessions::prune_expired`: a no-op unless `cleanup_interval` has elapsed
since the last sweep; otherwise stamp the sweep time and keep exactly the
sessions whose age is still below `max_session_duration`. -/
def prune_expired (cfg : SessionsConfig) (st : SessionsState) (now : Nat) :
    SessionsState :=
  if now - st.last_cleanup_time < cfg.cleanup_interval then st
  else
    { last_cleanup_time := now,
      store := st.store.filter
        (fun p => now - p.2.creation_time < cfg.max_session_duration) }

/-- Repeated `renew_session` calls for one user, at the given sequence of
times, collecting the returned values. -/
def renewIter (cfg : SessionsConfig) (u : String) : Store → List Nat → List (Option Nat) × Store
  | s, [] => ([], s)
  | s, t :: ts =>
    let step := renew_session cfg s u t
    let rest := renewIter cfg u step.2 ts
    (step.1 :: rest.1, rest.2)

/-- Left-hand uniqueness of the bimap: no username appears twice. -/
def uniqueLefts (s : Store) : Prop :=
  (s.map (fun p => p.1)).Nodup

/-- Right-hand uniqueness of the bimap: no token `id` appears twice. -/
def uniqueRights (s : Store) : Prop :=
  (s.map (fun p => p.2.id)).Nodup

instance (s : Store) : Decidable (uniqueLefts s) := by
  unfold uniqueLefts; infer_instance

instance (s : Store) : Decidable (uniqueRights s) := by
  unfold uniqueRights; infer_instance

/-- The time of the last element of a list of attempt times (`d` when the
list is empty). -/
def lastTime : List Nat → Nat → Nat
  | [], d => d
  | t :: ts, _ => lastTime ts t

/-! ### Helper lemmas -/

theorem find?_append_eq_of_none {α : Type} (l₁ l₂ : List α) (p : α → Bool)
    (h : l₁.find? p = none) : (l₁ ++ l₂).find? p = l₂.find? p := by
  induction l₁ with
  | nil => simp
  | cons a l ih =>
    rw [List.find?_eq_none] at h
    have hpa : p a = false := by
      have := h a (List.mem_cons_self a l)
      simpa using this
    have hl : l.find? p = none := by
      rw [List.find?_eq_none]
      intro x hx
      exact h x (List.mem_cons_of_mem a hx)
    simpa [List.find?_cons, hpa] using ih hl

theorem find?_filter_eq_none {α : Type} (l : List α) (f p : α → Bool)
    (h : ∀ x, f x = true → p x = false) : (l.filter f).find? p = none := by
  rw [List.find?_eq_none]
  intro x hx
  rw [List.mem_filter] at hx
  simp [h x hx.2]

theorem find?_insertBi_left (s : Store) (u : String) (d : SessionData) :
    (insertBi s u d).find? (fun p => p.1 == u) = some (u, d) := by
  unfold insertBi
  rw [find?_append_eq_of_none]
  · simp [List.find?_cons]
  · apply find?_filter_eq_none
    intro x hx
    have hne : x.1 ≠ u := by
      rcases Bool.and_eq_true_iff.mp hx with ⟨h1, _⟩
      simpa using h1
    simpa using hne

theorem freshId_not_contains (s : Store) (cands : List SessionID) (t : SessionID)
    (h : freshId s cands = some t) : containsRight s t = false := by
  induction cands with
  | nil => simp [freshId] at h
  | cons c rest ih =>
    unfold freshId at h
    by_cases hc : containsRight s c = true
    · rw [if_pos hc] at h
      exact ih h
    · rw [if_neg hc] at h
      have : c = t := by simpa using h
      subst this
      simpa using hc

theorem pairs_eq_of_uniqueRights (s : Store) (hR : uniqueRights s)
    (a b : String × SessionData) (ha : a ∈ s) (hb : b ∈ s)
    (hid : a.2.id = b.2.id) : a = b := by
  unfold uniqueRights at hR
  exact List.inj_on_of_nodup_map hR ha hb hid

/-! ### Claim theorems -/

/-- C9: `is_valid_username` evaluates its checks in the fixed order
contains-whitespace, too-short, too-long, not-alphanumeric,
flagged-inappropriate, returning the error of the first failing check, and
`ok` when all five pass: the embedded code equals the first-failing-check
reading of the specification. -/
theorem is_valid_username_check_order (cfg : LoginsConfig) (isWs isAlnum : Char → Bool)
    (isInappropriate : List Char → Bool) (u : List Char) :
    is_valid_username cfg isWs isAlnum isInappropriate u
      = firstFailing (usernameChecks cfg isWs isAlnum isInappropriate u) := by
  by_cases h1 : u.any isWs = true
  · simp [is_valid_username, usernameChecks, firstFailing, h1]
  · by_cases h2 : rust_str_len u < cfg.min_username_len
    · simp [is_valid_username, usernameChecks, firstFailing, h1, h2]
    · by_cases h3 : cfg.max_username_len < rust_str_len u
      · simp [is_valid_username, usernameChecks, firstFailing, h1, h2, h3]
      · by_cases h4 : u.all isAlnum = true
        · by_cases h5 : isInappropriate u = true <;>
            simp [is_valid_username, usernameChecks, firstFailing, h1, h2, h3, h4, h5]
        · simp [is_valid_username, usernameChecks, firstFailing, h1, h2, h3, h4]

/-- C4: `mark_failed_login` resets the running failure count to 1 when the
previous streak had already reached `max_fails`, and otherwise increments it
by 1 (a missing entry starts at 1); in both cases the last-attempt timestamp
becomes the current time. -/
theorem mark_failed_login_spec (cfg : LoginsConfig) (m : FailedMap) (u : String)
    (now : Nat) (h255 : cfg.max_fails ≤ 255) :
    (∀ a, m u = some a →
      mark_failed_login cfg m u now u
        = some (if cfg.max_fails ≤ a.running_count then ⟨1, now⟩
                else ⟨a.running_count + 1, now⟩))
    ∧ (m u = none → mark_failed_login cfg m u now u = some ⟨1, now⟩) := by
  constructor
  · intro a ha
    by_cases hc : cfg.max_fails ≤ a.running_count
    · simp [mark_failed_login, FailedMap.insert, FailedMap.remove, ha, hc]
    · have hlt : a.running_count + 1 < 256 := by omega
      simp [mark_failed_login, FailedMap.insert, FailedMap.remove, ha, hc,
        Nat.mod_eq_of_lt hlt]
  · intro ha
    simp [mark_failed_login, FailedMap.insert, FailedMap.remove, ha]

/-- Witness for C4: a first failure for a fresh username records count 1 at
the current time. -/
theorem mark_failed_login_spec_witness :
    mark_failed_login ⟨60, 3, 8, 3, 10, 30, 4⟩ (fun _ => none) "a" 7 "a"
      = some ⟨1, 7⟩ :=
  (mark_failed_login_spec ⟨60, 3, 8, 3, 10, 30, 4⟩ (fun _ => none) "a" 7
    (by decide)).2 rfl

/-- C10: for a username that holds no live session, `renew_session` returns
`none` and leaves the store unchanged; the renewal-cap-reached failure
returns the same `none` value, so the two failures are indistinguishable in
the returned value. -/
theorem renew_session_absent_unchanged (cfg : SessionsConfig) (s : Store)
    (u : String) (now : Nat)
    (habs : s.find? (fun p => p.1 == u) = none) :
    renew_session cfg s u now = (none, s)
    ∧ ∀ (s₂ : Store) (d : SessionData) (now₂ : Nat),
        s₂.find? (fun p => p.1 == u) = some (u, d) →
        cfg.max_renew_count ≤ d.renew_count →
        (renew_session cfg s₂ u now₂).1 = none := by
  constructor
  · unfold renew_session removeByLeft
    rw [habs]
  · intro s₂ d now₂ hf hcap
    unfold renew_session removeByLeft
    rw [hf]
    simp [hcap]

/-- Witness for C10: renewing for a user absent from a one-session store
returns `none` and the same store. -/
theorem renew_session_absent_unchanged_witness :
    renew_session ⟨10, 5, 2⟩ [("alice", ⟨['t'], 0, 0⟩)] "bob" 3
      = (none, [("alice", ⟨['t'], 0, 0⟩)]) :=
  (renew_session_absent_unchanged ⟨10, 5, 2⟩ [("alice", ⟨['t'], 0, 0⟩)] "bob" 3
    (by decide)).1

/-- C1 (divergence witness): with `max_renew_count = 2`, a user whose session
already has `renew_count = 2` calls `renew_session`; the call returns `none`
but also removes the session from the store (the cap branch never reinserts
the pair removed by `remove_by_left`), so the previously resolvable token
stops resolving — the store does not stay unchanged as the specification
states. -/
theorem renew_session_at_cap_drops_session :
    renew_session ⟨10, 5, 2⟩ [("alice", ⟨['t'], 0, 2⟩)] "alice" 3 = (none, [])
    ∧ get_session_owner [("alice", ⟨['t'], 0, 2⟩)] ['t'] = some "alice"
    ∧ get_session_owner
        (renew_session ⟨10, 5, 2⟩ [("alice", ⟨['t'], 0, 2⟩)] "alice" 3).2 ['t']
        = none := by decide

/-- C7 (counterexample): `reserve_username` consults only the in-memory
reservation set; the first conjunct exhibits a registered-credentials
predicate (modelling the SQLite `PasswordUsers` table of the signup flow)
that contains `"alice"`, and the second shows that `reserve_username`
nonetheless succeeds for `"alice"` when no reservation is live, refuting
"returns None when the name is already registered as a credential record". -/
theorem reserve_username_ignores_registered :
    ((fun v => v == "alice" : String → Bool) "alice" = true)
    ∧ (reserve_username (fun _ => false) "alice").1 = some () := by decide

/-- C7 (amended): `reserve_username` fails exactly when a reservation for the
name is already live, a live reservation makes a second attempt fail, and
dropping the reservation handle frees the name so a subsequent reservation
succeeds. -/
theorem reserve_username_exclusive (s : ReservedSet) (u : String) :
    ((reserve_username s u).1 = none ↔ s u = true)
    ∧ ((reserve_username s u).1 = some () →
        (reserve_username (reserve_username s u).2 u).1 = none)
    ∧ (reserve_username (drop_reservation s u) u).1 = some () := by
  by_cases h : s u = true
  · simp [reserve_username, drop_reservation, h]
  · simp [reserve_username, drop_reservation, h]

/-- Witness for C7 (amended): after dropping the reservation of `"alice"`,
a fresh reservation for `"alice"` succeeds. -/
theorem reserve_username_exclusive_witness :
    (reserve_username (drop_reservation (fun _ => false) "alice") "alice").1
      = some () :=
  (reserve_username_exclusive (fun _ => false) "alice").2.2

/-- A run of consecutive `mark_failed_login` calls that starts from a live
entry with count `c ≥ 1` and never crosses `max_fails` adds the number of
calls to the count and stamps the last call time. -/
theorem applyFails_run (cfg : LoginsConfig) (u : String) (h255 : cfg.max_fails ≤ 255) :
    ∀ (ts : List Nat) (m : FailedMap) (c t₀ : Nat),
      m u = some ⟨c, t₀⟩ → 1 ≤ c → c + ts.length ≤ cfg.max_fails →
      applyFails cfg u m ts u = some ⟨c + ts.length, lastTime ts t₀⟩ := by
  intro ts
  induction ts with
  | nil =>
    intro m c t₀ hm h1 hlen
    simpa [applyFails, lastTime] using hm
  | cons t ts ih =>
    intro m c t₀ hm h1 hlen
    have hlen' : c + (ts.length + 1) ≤ cfg.max_fails := by
      rw [List.length_cons] at hlen; omega
    have hlt : ¬ cfg.max_fails ≤ c := by omega
    have hmod : (c + 1) % 256 = c + 1 := Nat.mod_eq_of_lt (by omega)
    have hstep : mark_failed_login cfg m u t u = some ⟨c + 1, t⟩ := by
      simp [mark_failed_login, FailedMap.insert, FailedMap.remove, hm, hlt, hmod]
    have hfold : applyFails cfg u m (t :: ts)
        = applyFails cfg u (mark_failed_login cfg m u t) ts := rfl
    rw [hfold, ih (mark_failed_login cfg m u t) (c + 1) t hstep (by omega) (by omega)]
    have harith : c + 1 + ts.length = c + (t :: ts).length := by
      rw [List.length_cons]; omega
    rw [show lastTime ts t = lastTime (t :: ts) t₀ from rfl, harith]

/-- C3: starting from no recorded failures, exactly `max_fails` consecutive
`mark_failed_login` calls leave `is_user_locked_out` returning the positive
remainder `lockout_time - (now - last_failure_time)` while the window has
not elapsed, and `none` once the window has elapsed, without any successful
login. -/
theorem lockout_after_max_fails (cfg : LoginsConfig) (u : String) (m : FailedMap)
    (ts : List Nat) (now : Nat)
    (hm : m u = none) (hlen : ts.length = cfg.max_fails)
    (h1 : 1 ≤ cfg.max_fails) (h255 : cfg.max_fails ≤ 255)
    (hmono : lastTime ts 0 ≤ now) :
    (now - lastTime ts 0 < cfg.lockout_time →
      is_user_locked_out cfg (applyFails cfg u m ts) u now
        = some (cfg.lockout_time - (now - lastTime ts 0))
      ∧ 0 < cfg.lockout_time - (now - lastTime ts 0))
    ∧ (cfg.lockout_time ≤ now - lastTime ts 0 →
      is_user_locked_out cfg (applyFails cfg u m ts) u now = none) := by
  obtain ⟨t, ts', rfl⟩ : ∃ t ts', ts = t :: ts' := by
    cases ts with
    | nil => exact absurd hlen (by simpa using (by omega : ¬ 0 = cfg.max_fails))
    | cons t ts' => exact ⟨t, ts', rfl⟩
  have hstep : mark_failed_login cfg m u t u = some ⟨1, t⟩ := by
    simp [mark_failed_login, FailedMap.insert, FailedMap.remove, hm]
  have hlen' : 1 + ts'.length ≤ cfg.max_fails := by
    simp [List.length_cons] at hlen; omega
  have hrun := applyFails_run cfg u h255 ts' (mark_failed_login cfg m u t) 1 t
    hstep le_rfl hlen'
  have hfinal : applyFails cfg u m (t :: ts') u
      = some ⟨cfg.max_fails, lastTime (t :: ts') 0⟩ := by
    rw [show applyFails cfg u m (t :: ts')
        = applyFails cfg u (mark_failed_login cfg m u t) ts' from rfl, hrun]
    have hcount : 1 + ts'.length = cfg.max_fails := by
      simp [List.length_cons] at hlen; omega
    rw [show lastTime ts' t = lastTime (t :: ts') 0 from rfl, hcount]
  constructor
  · intro hwin
    refine ⟨?_, Nat.sub_pos_of_lt hwin⟩
    unfold is_user_locked_out
    rw [hfinal]
    simp [hwin]
  · intro hgone
    unfold is_user_locked_out
    rw [hfinal]
    simp [Nat.not_lt.mpr hgone]

/-- Witness for C3: `max_fails = 3`, `lockout_time = 60`; three failures at
times 1, 2, 5 leave the user locked out at time 10 with 55 remaining. -/
theorem lockout_after_max_fails_witness :
    is_user_locked_out ⟨60, 3, 8, 3, 10, 30, 4⟩
      (applyFails ⟨60, 3, 8, 3, 10, 30, 4⟩ "a" (fun _ => none) [1, 2, 5]) "a" 10
      = some 55 :=
  ((lockout_after_max_fails ⟨60, 3, 8, 3, 10, 30, 4⟩ "a" (fun _ => none)
    [1, 2, 5] 10 rfl rfl (by decide) (by decide) (by decide)).1 (by decide)).1

/-- Renewal run: from a session whose renewal count is `n` short of the cap,
`n + 1` successive `renew_session` calls return `n - 1, n - 2, ..., 0`
followed by `none`. -/
theorem renewIter_run (cfg : SessionsConfig) (u : String)
    (h255 : cfg.max_renew_count ≤ 255) :
    ∀ (n : Nat) (s : Store) (d : SessionData) (times : List Nat),
      s.find? (fun p => p.1 == u) = some (u, d) →
      d.renew_count + n = cfg.max_renew_count →
      times.length = n + 1 →
      (renewIter cfg u s times).1
        = (List.range n).map (fun i => some (n - 1 - i)) ++ [none] := by
  intro n
  induction n with
  | zero =>
    intro s d times hf hc hlen
    obtain ⟨t, rest, rfl⟩ : ∃ t rest, times = t :: rest := by
      cases times with
      | nil => simp at hlen
      | cons t rest => exact ⟨t, rest, rfl⟩
    have hrest : rest = [] := by
      rw [List.length_cons] at hlen
      exact List.length_eq_zero.mp (by omega)
    subst hrest
    have hcap : cfg.max_renew_count ≤ d.renew_count := by omega
    have hstep : renew_session cfg s u t = (none, s.filter (fun q => q.1 != u)) := by
      unfold renew_session removeByLeft
      rw [hf]
      simp [hcap]
    simp [renewIter, hstep]
  | succ n ih =>
    intro s d times hf hc hlen
    obtain ⟨t, rest, rfl⟩ : ∃ t rest, times = t :: rest := by
      cases times with
      | nil => simp at hlen
      | cons t rest => exact ⟨t, rest, rfl⟩
    have hrlen : rest.length = n + 1 := by
      rw [List.length_cons] at hlen; omega
    have hnc : ¬ cfg.max_renew_count ≤ d.renew_count := by omega
    have hmod : (d.renew_count + 1) % 256 = d.renew_count + 1 :=
      Nat.mod_eq_of_lt (by omega)
    have hstep : renew_session cfg s u t
        = (some (cfg.max_renew_count - (d.renew_count + 1)),
           insertBi (s.filter (fun q => q.1 != u)) u
             ⟨d.id, t, d.renew_count + 1⟩) := by
      unfold renew_session removeByLeft
      rw [hf]
      simp [hnc, hmod]
    have hfind' := find?_insertBi_left (s.filter (fun q => q.1 != u)) u
      ⟨d.id, t, d.renew_count + 1⟩
    have hrest := ih (insertBi (s.filter (fun q => q.1 != u)) u
        ⟨d.id, t, d.renew_count + 1⟩)
      ⟨d.id, t, d.renew_count + 1⟩ rest hfind' (by simp; omega) hrlen
    have hunf : (renewIter cfg u s (t :: rest)).1
        = (renew_session cfg s u t).1
          :: (renewIter cfg u (renew_session cfg s u t).2 rest).1 := rfl
    rw [hunf, hstep]
    simp only []
    rw [hrest]
    have hval : cfg.max_renew_count - (d.renew_count + 1) = n := by omega
    rw [hval, List.range_succ_eq_map]
    have hfun : (fun i => some (n + 1 - 1 - i)) ∘ Nat.succ
        = (fun i : Nat => some (n - 1 - i)) := by
      funext i
      simp [Function.comp]
      omega
    simp [List.map_map, hfun]
    intro a _
    omega

/-- C6: a freshly created session (`renew_count = 0`) renews successfully
exactly `max_renew_count` times, returning the decreasing remaining counts
`max_renew_count - 1, ..., 0`, and the `(max_renew_count + 1)`-th renewal
returns `none`. -/
theorem renew_session_sequence (cfg : SessionsConfig) (s : Store) (u : String)
    (d : SessionData) (times : List Nat)
    (hf : s.find? (fun p => p.1 == u) = some (u, d))
    (hfresh : d.renew_count = 0)
    (h255 : cfg.max_renew_count ≤ 255)
    (hlen : times.length = cfg.max_renew_count + 1) :
    (renewIter cfg u s times).1
      = (List.range cfg.max_renew_count).map
          (fun i => some (cfg.max_renew_count - 1 - i)) ++ [none] :=
  renewIter_run cfg u h255 cfg.max_renew_count s d times hf (by omega) hlen

/-- Witness for C6: with `max_renew_count = 2`, three renewals of a fresh
session return `some 1, some 0, none`. -/
theorem renew_session_sequence_witness :
    (renewIter ⟨100, 10, 2⟩ "u" [("u", ⟨['i'], 0, 0⟩)] [1, 2, 3]).1
      = (List.range 2).map (fun i => some (2 - 1 - i)) ++ [none] :=
  renew_session_sequence ⟨100, 10, 2⟩ [("u", ⟨['i'], 0, 0⟩)] "u" ⟨['i'], 0, 0⟩
    [1, 2, 3] (by decide) rfl (by decide) rfl

/-- After a bimap insert, the inserted token resolves to the inserted
username. -/
theorem getByRight_insertBi_self (s : Store) (u : String) (d : SessionData) :
    getByRight (insertBi s u d) d.id = some u := by
  unfold getByRight insertBi
  rw [find?_append_eq_of_none]
  · simp
  · apply find?_filter_eq_none
    intro x hx
    rcases Bool.and_eq_true_iff.mp hx with ⟨_, h2⟩
    have hne : x.2.id ≠ d.id := by simpa using h2
    simpa using hne

/-- After a bimap insert for a user, the token of the prior session of that
user no longer resolves (assuming the new token differs from it). -/
theorem getByRight_insertBi_old (s : Store) (u : String) (d od : SessionData)
    (hR : uniqueRights s) (hmem : (u, od) ∈ s) (hne : d.id ≠ od.id) :
    getByRight (insertBi s u d) od.id = none := by
  unfold getByRight insertBi
  have hfilter : (s.filter (fun q => q.1 != u && q.2.id != d.id)).find?
      (fun p => p.2.id == od.id) = none := by
    rw [List.find?_eq_none]
    intro x hx hpred
    rw [List.mem_filter] at hx
    have hxid : x.2.id = od.id := by simpa using hpred
    have hxeq : x = (u, od) :=
      pairs_eq_of_uniqueRights s hR x (u, od) hx.1 hmem hxid
    rw [hxeq] at hx
    simp at hx
  rw [find?_append_eq_of_none _ _ _ hfilter]
  simp [hne]

/-- A bimap insert keeps the usernames of the store pairwise distinct. -/
theorem uniqueLefts_insertBi (s : Store) (u : String) (d : SessionData)
    (hL : uniqueLefts s) : uniqueLefts (insertBi s u d) := by
  unfold uniqueLefts insertBi
  rw [List.map_append, List.nodup_append]
  refine ⟨?_, by simp, ?_⟩
  · unfold uniqueLefts at hL
    exact ((List.filter_sublist s).map (fun p : String × SessionData => p.1)).nodup hL
  · intro a ha hb
    simp only [List.map_cons, List.map_nil, List.mem_singleton] at hb
    rw [List.mem_map] at ha
    obtain ⟨x, hx, hxa⟩ := ha
    rw [List.mem_filter] at hx
    rcases Bool.and_eq_true_iff.mp hx.2 with ⟨h1, _⟩
    have hxu : x.1 ≠ u := by simpa using h1
    exact hxu (hxa.trans hb)

/-- C5: when a user who already holds a live session gets a new session,
the old token immediately stops resolving through `get_session_owner`, the
new token resolves to the user, and the store still holds at most one
session per username. -/
theorem create_session_replaces_prior (s : Store) (u : String) (od : SessionData)
    (cands : List SessionID) (now : Nat) (tok : SessionID) (s₂ : Store)
    (hL : uniqueLefts s) (hR : uniqueRights s)
    (hmem : (u, od) ∈ s)
    (hcr : create_session s u cands now = some (tok, s₂)) :
    get_session_owner s₂ od.id = none
    ∧ get_session_owner s₂ tok = some u
    ∧ uniqueLefts s₂ := by
  unfold create_session at hcr
  cases hfid : freshId s cands with
  | none => rw [hfid] at hcr; simp at hcr
  | some nid =>
    rw [hfid] at hcr
    simp only [Option.some.injEq, Prod.mk.injEq] at hcr
    obtain ⟨htok, hs⟩ := hcr
    subst hs
    subst htok
    have hfresh : containsRight s nid = false :=
      freshId_not_contains s cands nid hfid
    have hne : nid ≠ od.id := by
      intro hcontra
      have hct : containsRight s nid = true := by
        unfold containsRight
        rw [List.any_eq_true]
        exact ⟨(u, od), hmem, by simp [hcontra]⟩
      rw [hct] at hfresh
      simp at hfresh
    exact ⟨getByRight_insertBi_old s u ⟨nid, now, 0⟩ od hR hmem hne,
      getByRight_insertBi_self s u ⟨nid, now, 0⟩,
      uniqueLefts_insertBi s u ⟨nid, now, 0⟩ hL⟩

/-- Witness for C5: `"alice"` holds a session with token `['a']`; creating a
new session with fresh token `['b']` makes `['a']` stop resolving, makes
`['b']` resolve to `"alice"`, and keeps usernames unique. -/
theorem create_session_replaces_prior_witness :
    get_session_owner [("alice", ⟨['b'], 5, 0⟩)] ['a'] = none
    ∧ get_session_owner [("alice", ⟨['b'], 5, 0⟩)] ['b'] = some "alice"
    ∧ uniqueLefts [("alice", ⟨['b'], 5, 0⟩)] :=
  create_session_replaces_prior [("alice", ⟨['a'], 0, 0⟩)] "alice" ⟨['a'], 0, 0⟩
    [['b']] 5 ['b'] [("alice", ⟨['b'], 5, 0⟩)]
    (by decide) (by decide) (by decide) (by decide)

/-- C2 (counterexample): a session created at time 0 under
`max_session_duration = 10` has, at time 10, an age that has reached the
maximum, yet `get_session_owner` still resolves its token, because the
lookup never consults the clock — expiry acts only through `prune_expired`
sweeps.  This refutes "for a token of a session whose age has reached or
exceeded max_session_duration the result is None". -/
theorem get_session_owner_expired_counterexample :
    (⟨10, 5, 3⟩ : SessionsConfig).max_session_duration ≤ 10 - 0
    ∧ get_session_owner [("alice", ⟨['t'], 0, 0⟩)] ['t'] = some "alice" := by
  decide

/-- Right-hand lookup characterisation of the store: `getByRight` returns a
username exactly when that username owns a pair carrying the token. -/
theorem getByRight_iff (s : Store) (id : SessionID) (u : String)
    (hR : uniqueRights s) :
    getByRight s id = some u ↔ ∃ d, (u, d) ∈ s ∧ d.id = id := by
  constructor
  · intro h
    unfold getByRight at h
    cases hf : s.find? (fun p => p.2.id == id) with
    | none => rw [hf] at h; simp at h
    | some p =>
      rw [hf] at h
      simp at h
      have hpmem := List.mem_of_find?_eq_some hf
      have hpid : p.2.id = id := by simpa using List.find?_some hf
      refine ⟨p.2, ?_, hpid⟩
      have : (u, p.2) = p := by
        cases p with
        | mk a b => simp at h ⊢; exact h.symm
      rw [this]
      exact hpmem
  · rintro ⟨d, hmem, hid⟩
    unfold getByRight
    cases hf : s.find? (fun p => p.2.id == id) with
    | none =>
      rw [List.find?_eq_none] at hf
      exact absurd (by simp [hid] : ((u, d).2.id == id) = true) (hf (u, d) hmem)
    | some q =>
      have hq : q.2.id = id := by simpa using List.find?_some hf
      have hqmem := List.mem_of_find?_eq_some hf
      have hqeq : q = (u, d) :=
        pairs_eq_of_uniqueRights s hR q (u, d) hqmem hmem (by rw [hq, hid])
      rw [hqeq]
      rfl

/-- C2 (amended): `get_session_owner` returns `some owner` exactly when a
pair carrying the token is present in the store, regardless of age; a token
never carried by any pair returns `none`; and once `prune_expired` actually
sweeps (the cleanup interval has elapsed), the token of a session whose age
has reached `max_session_duration` returns `none`, indistinguishable from a
never-issued token. -/
theorem get_session_owner_presence (cfg : SessionsConfig) (st : SessionsState)
    (id : SessionID) (u : String) (d : SessionData) (now : Nat)
    (hR : uniqueRights st.store) :
    (get_session_owner st.store id = some u ↔ ∃ d', (u, d') ∈ st.store ∧ d'.id = id)
    ∧ ((∀ p ∈ st.store, p.2.id ≠ id) → get_session_owner st.store id = none)
    ∧ (cfg.cleanup_interval ≤ now - st.last_cleanup_time →
        (u, d) ∈ st.store →
        cfg.max_session_duration ≤ now - d.creation_time →
        get_session_owner (prune_expired cfg st now).store d.id = none) := by
  refine ⟨getByRight_iff st.store id u hR, ?_, ?_⟩
  · intro hnone
    unfold get_session_owner getByRight
    rw [List.find?_eq_none.mpr]
    · rfl
    · intro p hp
      simp [hnone p hp]
  · intro hint hmem hexp
    unfold prune_expired
    rw [if_neg (by omega)]
    unfold get_session_owner getByRight
    simp only []
    rw [List.find?_eq_none.mpr]
    · rfl
    · intro x hx hpred
      rw [List.mem_filter] at hx
      have hxid : x.2.id = d.id := by simpa using hpred
      have hxeq : x = (u, d) :=
        pairs_eq_of_uniqueRights st.store hR x (u, d) hx.1 hmem hxid
      have hkeep := hx.2
      rw [hxeq] at hkeep
      simp only [decide_eq_true_eq] at hkeep
      omega

/-- Witness for C2 (amended): in a store holding only an expired session of
`"alice"` (created at 0, `max_session_duration = 10`, observed at 10), a
sweep that is due removes it, after which its token no longer resolves. -/
theorem get_session_owner_presence_witness :
    get_session_owner
      (prune_expired ⟨10, 5, 3⟩ ⟨[("alice", ⟨['t'], 0, 0⟩)], 0⟩ 10).store ['t']
      = none :=
  (get_session_owner_presence ⟨10, 5, 3⟩ ⟨[("alice", ⟨['t'], 0, 0⟩)], 0⟩ ['t']
    "alice" ⟨['t'], 0, 0⟩ 10 (by decide)).2.2 (by decide) (by decide) (by decide)

/-- C8: with the validation bounds of the Argon2 crate satisfied
(`salt_len ≥ 8`, `hash_length ≥ 4`), hashing a password that matches the
complexity pattern succeeds, yields a salt of the configured length, and
verifying the same password against the stored salt and hash returns
`ok true`; any other password returns `ok false` rather than an error,
under the hypothesis that the abstract Argon2 core has no collision with
the hashed password at the drawn salt (the standard cryptographic reading
of the claim; the core itself lives in an external crate). -/
theorem password_roundtrip (cfg : LoginsConfig)
    (argon : Nat → List Nat → List Nat → List Nat)
    (pwMatches : List Nat → Bool) (randBytes pwd : List Nat)
    (hargLen : ∀ L p s, (argon L p s).length = L)
    (_hmatch : pwMatches pwd = true)
    (hsalt8 : 8 ≤ cfg.salt_len)
    (hout4 : 4 ≤ cfg.hash_length)
    (hrand : cfg.salt_len ≤ randBytes.length)
    (hinj : ∀ p₂, p₂ ≠ pwd →
      argon cfg.hash_length p₂ (randBytes.take cfg.salt_len)
        ≠ argon cfg.hash_length pwd (randBytes.take cfg.salt_len)) :
    ∃ ph, hash_password cfg argon randBytes pwd = Except.ok ph
      ∧ ph.salt.length = cfg.salt_len
      ∧ verify_password cfg argon pwd ph.salt ph.hash = Except.ok true
      ∧ ∀ pwd₂, pwd₂ ≠ pwd →
          verify_password cfg argon pwd₂ ph.salt ph.hash = Except.ok false := by
  have hslen : (randBytes.take cfg.salt_len).length = cfg.salt_len := by
    rw [List.length_take]
    omega
  have hhash : hash_raw argon cfg.hash_length pwd (randBytes.take cfg.salt_len)
      = Except.ok (argon cfg.hash_length pwd (randBytes.take cfg.salt_len)) := by
    unfold hash_raw
    rw [if_neg (by omega), if_neg (by omega)]
  refine ⟨⟨argon cfg.hash_length pwd (randBytes.take cfg.salt_len),
    randBytes.take cfg.salt_len⟩, ?_, hslen, ?_, ?_⟩
  · simp only [hash_password]
    rw [hhash]
  · unfold verify_password verify_raw
    rw [hargLen, hhash]
    simp
  · intro pwd₂ hne
    unfold verify_password verify_raw
    rw [hargLen]
    have hhash₂ : hash_raw argon cfg.hash_length pwd₂ (randBytes.take cfg.salt_len)
        = Except.ok (argon cfg.hash_length pwd₂ (randBytes.take cfg.salt_len)) := by
      unfold hash_raw
      rw [if_neg (by omega), if_neg (by omega)]
    rw [hhash₂]
    simp [hinj pwd₂ hne]

/-- Witness for C8: a concrete length-respecting, injective Argon2 core
(each password is encoded injectively into the repeated byte); hashing `[1]`
and verifying `[1]` gives `ok true`, any other password gives `ok false`. -/
theorem password_roundtrip_witness :
    ∃ ph, hash_password ⟨60, 3, 8, 3, 10, 30, 4⟩
        (fun L p _ => List.replicate L (Encodable.encode p))
        (List.replicate 8 0) [1] = Except.ok ph
      ∧ ph.salt.length = 8
      ∧ verify_password ⟨60, 3, 8, 3, 10, 30, 4⟩
          (fun L p _ => List.replicate L (Encodable.encode p))
          [1] ph.salt ph.hash = Except.ok true
      ∧ ∀ pwd₂, pwd₂ ≠ [1] →
          verify_password ⟨60, 3, 8, 3, 10, 30, 4⟩
            (fun L p _ => List.replicate L (Encodable.encode p))
            pwd₂ ph.salt ph.hash = Except.ok false :=
  password_roundtrip ⟨60, 3, 8, 3, 10, 30, 4⟩
    (fun L p _ => List.replicate L (Encodable.encode p))
    (fun _ => true) (List.replicate 8 0) [1]
    (fun L p s => by simp)
    rfl (by decide) (by decide) (by decide)
    (fun p₂ hne hcontra => hne (Encodable.encode_injective
      (List.replicate_right_injective (by decide : (4 : Nat) ≠ 0) hcontra)))

end MangleAuth
